import Mathlib

/-!
Shallow embedding of the tlapack blocked LQ/RQ drivers (`gelqf.hpp`,
`gerqf.hpp`), of the generic `herk` argument check and of the `ungl2`
reverse reflector loop, together with theorems about the drivers' loop
structure, error handling, workspace sizing and edge cases.

The unblocked kernels (`gelq2`, `gerq2`, `larft`, `larfb`, `larf`) and the
`WorkInfo` arithmetic live outside the sources at hand; where the drivers
call them, the embedding either records the call with its exact slice
arguments (trace level), abstracts the call as an opaque state transformer
(run level), or models the missing piece from the specification, as marked
in the respective doc comments.
-/

namespace Tlapack

/-- Side argument of larf/larfb (tlapack enum `Side`). -/
inductive Side where
  | Left
  | Right
deriving DecidableEq, Repr

/-- Transposition argument (tlapack/blas enum `Op`). -/
inductive Op where
  | NoTrans
  | Trans
  | ConjTrans
deriving DecidableEq, Repr

/-- Sweep direction of a block reflector (tlapack enum `Direction`). -/
inductive Direction where
  | Forward
  | Backward
deriving DecidableEq, Repr

/-- Reflector storage orientation (tlapack enum `StoreV`). -/
inductive StoreV where
  | Columnwise
  | Rowwise
deriving DecidableEq, Repr

/-- Triangle selector of herk (blas enum `Uplo`, including `General`). -/
inductive Uplo where
  | Upper
  | Lower
  | General
deriving DecidableEq, Repr

/-- Arguments of one larft + larfb block-reflector application recorded by a
blocked driver: side, op, sweep direction, storage orientation, and the target
slice rows [rowLo, rowHi) x cols [colLo, colHi) of A that larfb updates. -/
structure BlockApply where
  side : Side
  trans : Op
  dir : Direction
  store : StoreV
  rowLo : ℕ
  rowHi : ℕ
  colLo : ℕ
  colHi : ℕ
deriving DecidableEq, Repr

/-- One iteration of a blocked driver loop: the loop counter (`j` for gelqf,
`j2` for gerqf), the panel width `ib`, the panel slice rows [prLo, prHi) x
cols [pcLo, pcHi) handed to the unblocked panel factorizer, the tau slice
[tauLo, tauHi), and the block-reflector application performed in this
iteration, when any. -/
structure PanelStep where
  ctr : ℕ
  ib : ℕ
  prLo : ℕ
  prHi : ℕ
  pcLo : ℕ
  pcHi : ℕ
  tauLo : ℕ
  tauHi : ℕ
  app : Option BlockApply
deriving DecidableEq, Repr

/-- Effective block size of both drivers: `nb = min(opts.nb, k)` with
`k = min(m, n)` (gelqf.hpp line 120, gerqf.hpp line 123). -/
def effNB (nbopt m n : ℕ) : ℕ :=
  min nbopt (min m n)

/-- Common loop skeleton of the two blocked drivers: starting from counter
`j`, while `j < k`, emit the iteration record `f j` and advance the counter
by `nb` (the C++ loops `for (j = 0; j < k; j += nb)`). The recursion is
fuel-indexed; for `nb = 0` the C++ loop does not terminate, and the trace is
meaningful only when the fuel covers all iterations (`1 ≤ nb` suffices for
the fuel used below). -/
def blockedIters (k nb : ℕ) (f : ℕ → PanelStep) : ℕ → ℕ → List PanelStep
  | 0, _ => []
  | fuel + 1, j => if j < k then f j :: blockedIters k nb f fuel (j + nb) else []

/-- One iteration of the gelqf main loop (gelqf.hpp lines 136-156): gelq2
factors the panel `A(j:j+ib, j:n)` with `tau(j:j+ib)`, where
`ib = min(nb, k - j)`; when `j + ib < m`, larft builds the triangular factor
with direction Forward and storage Rowwise and larfb applies the block
reflector from the right (Op NoTrans) to `A(j+ib:m, j:n)`. -/
def gelqfIter (m n k nb j : ℕ) : PanelStep :=
  { ctr := j, ib := min nb (k - j),
    prLo := j, prHi := j + min nb (k - j), pcLo := j, pcHi := n,
    tauLo := j, tauHi := j + min nb (k - j),
    app := if j + min nb (k - j) < m then
        some { side := Side.Right, trans := Op.NoTrans, dir := Direction.Forward,
               store := StoreV.Rowwise, rowLo := j + min nb (k - j), rowHi := m,
               colLo := j, colHi := n }
      else none }

/-- Trace of the gelqf main loop on an m-by-n matrix with option block size
`nbopt`: the loop of gelqf.hpp lines 136-156 with `k = min(m, n)` and
`nb = min(nbopt, k)`. -/
def gelqfTrace (m n nbopt : ℕ) : List PanelStep :=
  blockedIters (min m n) (effNB nbopt m n)
    (gelqfIter m n (min m n) (effNB nbopt m n)) (min m n + 1) 0

/-- One iteration of the gerqf main loop (gerqf.hpp lines 139-159): with
`ib = min(nb, k - j2)` and `j = m - j2 - ib`, gerq2 factors the panel
`A(j:j+ib, 0:n-j2)` with `tau(k-j2-ib:k-j2)`; when `j > 0`, larft builds the
triangular factor with direction Backward and storage Rowwise and larfb
applies the block reflector from the right (Op NoTrans) to `A(0:j, 0:n-j2)`. -/
def gerqfIter (m n k nb j2 : ℕ) : PanelStep :=
  { ctr := j2, ib := min nb (k - j2),
    prLo := m - j2 - min nb (k - j2),
    prHi := (m - j2 - min nb (k - j2)) + min nb (k - j2),
    pcLo := 0, pcHi := n - j2,
    tauLo := k - j2 - min nb (k - j2), tauHi := k - j2,
    app := if 0 < m - j2 - min nb (k - j2) then
        some { side := Side.Right, trans := Op.NoTrans, dir := Direction.Backward,
               store := StoreV.Rowwise, rowLo := 0, rowHi := m - j2 - min nb (k - j2),
               colLo := 0, colHi := n - j2 }
      else none }

/-- Trace of the gerqf main loop on an m-by-n matrix with option block size
`nbopt`: the loop of gerqf.hpp lines 139-159 with `k = min(m, n)` and
`nb = min(nbopt, k)`. -/
def gerqfTrace (m n nbopt : ℕ) : List PanelStep :=
  blockedIters (min m n) (effNB nbopt m n)
    (gerqfIter m n (min m n) (effNB nbopt m n)) (min m n + 1) 0

/-- Fuel-indexed body of the gelqf main loop at state level: starting from
counter `j`, while `j < k` the abstract iteration body (standing for the
calls to the external kernels gelq2, larft and larfb, which mutate A, tau
and the scratch workspace) is applied and the counter advances by `nb`. -/
def gelqfLoopRun {σ : Type} (k nb : ℕ) (body : ℕ → σ → σ) : ℕ → ℕ → σ → σ
  | 0, _, s => s
  | fuel + 1, j, s =>
    if j < k then gelqfLoopRun k nb body fuel (j + nb) (body j s) else s

/-- State-level embedding of gelqf (gelqf.hpp lines 107-159): the constants
`k = min(m, n)` and `nb = min(nbopt, k)` are computed, then the only argument
check `tlapack_check(size(tau) >= k)` runs, then the main loop. A failed
check raises before any state is touched; this is modelled by returning the
entry state inside the error constructor. The workspace allocation between
check and loop creates a fresh buffer and mutates neither A nor tau. -/
def gelqfRun {σ : Type} (m n sizeTau nbopt : ℕ) (body : ℕ → σ → σ) (s : σ) :
    Except σ σ :=
  if sizeTau < min m n then Except.error s
  else Except.ok (gelqfLoopRun (min m n) (effNB nbopt m n) body (min m n + 1) 0 s)

/-- State-level embedding of gerqf (gerqf.hpp lines 110-162), identical
skeleton to `gelqfRun`: the check `tlapack_check(size(tau) >= k)` precedes
the loop over `j2 = 0, nb, 2 nb, ... < k`, whose body abstracts the calls to
gerq2, larft and larfb. -/
def gerqfRun {σ : Type} (m n sizeTau nbopt : ℕ) (body : ℕ → σ → σ) (s : σ) :
    Except σ σ :=
  if sizeTau < min m n then Except.error s
  else Except.ok (gelqfLoopRun (min m n) (effNB nbopt m n) body (min m n + 1) 0 s)

/-- Modelled from the spec: the `WorkInfo` scratch-shape descriptor (a pair
of dimensions) returned by the workspace queries; its definition is not among
the sources at hand. -/
structure WorkInfo where
  m : ℕ
  n : ℕ
deriving DecidableEq, Repr

/-- Modelled from the spec: `WorkInfo::transpose` swaps the two dimensions of
the scratch shape (used as `gelq2_worksize<T>(A11, tauw1).transpose()`). -/
def WorkInfo.transpose (w : WorkInfo) : WorkInfo :=
  { m := w.n, n := w.m }

/-- Modelled from the spec: `WorkInfo::minMax` enlarges the scratch shape so
that it is sufficient for both operands, componentwise. -/
def WorkInfo.minMax (w v : WorkInfo) : WorkInfo :=
  { m := max w.m v.m, n := max w.n v.n }

/-- Modelled from the spec: `WorkInfo::operator+=` appends extra scratch to
the shape, componentwise; the drivers use it to reserve the extra nb-by-nb
block that holds the triangular factor T. -/
def WorkInfo.add (w v : WorkInfo) : WorkInfo :=
  { m := w.m + v.m, n := w.n + v.n }

/-- Shape containment: `w` fits inside `v` when both dimensions fit. -/
def WorkInfo.fitsIn (w v : WorkInfo) : Prop :=
  w.m ≤ v.m ∧ w.n ≤ v.n

/-- Workspace query of gelqf (gelqf.hpp lines 42-70), abstracted over the
results `gelq2ws` and `larfbws` of the external queries `gelq2_worksize` (on
the first-panel slices) and `larfb_worksize` (on the first trailing block):
start from the transposed panel requirement; when `m > nb`, also cover the
larfb requirement and append an nb-by-nb block for T. The `if constexpr`
type guard of line 65 holds in the driver's own call (the workspace element
type equals the matrix element type), so the append is modelled as taken. -/
def gelqfWorksize (gelq2ws larfbws : WorkInfo) (m n nbopt : ℕ) : WorkInfo :=
  let nb := effNB nbopt m n
  let wi := gelq2ws.transpose
  if nb < m then (wi.minMax larfbws).add { m := nb, n := nb } else wi

/-- Workspace query of gerqf (gerqf.hpp lines 42-70), same formula as
`gelqfWorksize` with gerq2 as the panel kernel. -/
def gerqfWorksize (gerq2ws larfbws : WorkInfo) (m n nbopt : ℕ) : WorkInfo :=
  let nb := effNB nbopt m n
  let wi := gerq2ws.transpose
  if nb < m then (wi.minMax larfbws).add { m := nb, n := nb } else wi

/-- Number of reflectors used by ungl2 (ungl2.hpp lines 91-96): with
`k = nrows(Q)` and `m = size(tauw)`, the routine uses `t = min(k, m)`
Householder reflectors. -/
def ungl2_t (kQ mtau : ℕ) : ℕ :=
  min kQ mtau

/-- Initial value of the reverse loop index of ungl2 (`idx_t j = t - 1`,
ungl2.hpp line 120) in the wrapping arithmetic of an unsigned index type
with `W` values: `t - 1` computed modulo `W`, which equals the sentinel
`W - 1` when `t = 0`. -/
def ungl2InitJ (W t : ℕ) : ℕ :=
  (t + (W - 1)) % W

/-- The reverse loop of ungl2 (ungl2.hpp lines 120-144) reduced to its index
arithmetic on an unsigned index type with `W` values: the loop runs while
`j != idx_t(-1)`, i.e. while `j` differs from the wrapped sentinel `W - 1`,
and `--j` wraps downward modulo `W`. Fuel-indexed; the result is the number
of executed loop-body iterations, or none when the fuel runs out before the
sentinel is reached. -/
def ungl2Countdown (W : ℕ) : ℕ → ℕ → Option ℕ
  | 0, _ => none
  | fuel + 1, j =>
    if j = W - 1 then some 0
    else
      match ungl2Countdown W fuel ((j + (W - 1)) % W) with
      | none => none
      | some c => some (c + 1)

/-- The argument check of the generic matrix-view herk overload (blas herk
source, lines 102-109) as a Boolean: `true` means `blas_error_if` signals.
Following the code, `n` is derived from A and trans as `nrows(A)` for
NoTrans and `ncols(A)` otherwise, and the third test errors when
`nrows(C) == ncols(C) && nrows(C) == n`. -/
def herkCheckSignals (uplo : Uplo) (trans : Op) (nrA ncA nrC ncC : ℕ) : Bool :=
  (decide (uplo ≠ Uplo.Lower) && decide (uplo ≠ Uplo.Upper) &&
    decide (uplo ≠ Uplo.General)) ||
  (decide (trans ≠ Op.NoTrans) && decide (trans ≠ Op.ConjTrans)) ||
  (decide (nrC = ncC) &&
    decide (nrC = (if trans = Op.NoTrans then nrA else ncA)))

/-- The argument check of ungl2 (ungl2.hpp lines 91-99) as a Boolean: with
`n = ncols(Q)` and `m` bound to `size(tauw)` (line 93), the guard
`tlapack_check_false(size(tauw) < min(m, n))` fires when
`size(tauw) < min(size(tauw), n)`. -/
def ungl2CheckFires (nQ mtau : ℕ) : Bool :=
  decide (mtau < min mtau nQ)

/-- Trace of a direct, standalone invocation of the unblocked panel
factorizer (gelq2 / gerq2) on the whole m-by-n matrix, following the
specification of the single-panel fast path: exactly one panel factorization
covering all of A, consuming the first min(m, n) tau entries, with no
block-factor construction and no block-reflector application. -/
def panelAloneTrace (m n : ℕ) : List PanelStep :=
  [{ ctr := 0, ib := min m n, prLo := 0, prHi := m, pcLo := 0, pcHi := n,
     tauLo := 0, tauHi := min m n, app := none }]

theorem blockedIters_eq_nil_iff (k nb : ℕ) (f : ℕ → PanelStep) (fuel j : ℕ) :
    blockedIters k nb f fuel j = [] ↔ fuel = 0 ∨ ¬ j < k := by
  cases fuel with
  | zero => simp [blockedIters]
  | succ fuel => by_cases h : j < k <;> simp [blockedIters, h]

theorem mem_blockedIters {k nb : ℕ} {f : ℕ → PanelStep} :
    ∀ {fuel j : ℕ} {s : PanelStep}, s ∈ blockedIters k nb f fuel j →
      ∃ i, j + nb * i < k ∧ s = f (j + nb * i) := by
  intro fuel
  induction fuel with
  | zero => intro j s hs; simp [blockedIters] at hs
  | succ fuel ih =>
    intro j s hs
    by_cases h : j < k
    · rw [blockedIters, if_pos h] at hs
      rcases List.mem_cons.mp hs with hs | hs
      · exact ⟨0, by simpa using h, by simpa using hs⟩
      · obtain ⟨i, hlt, hse⟩ := ih hs
        have harith : j + nb * (i + 1) = j + nb + nb * i := by ring
        exact ⟨i + 1, by omega, by rw [harith]; exact hse⟩
    · simp [blockedIters, h] at hs

theorem mem_blockedIters_of (k nb : ℕ) (f : ℕ → PanelStep) :
    ∀ (i fuel j : ℕ), i < fuel → j + nb * i < k →
      f (j + nb * i) ∈ blockedIters k nb f fuel j := by
  intro i
  induction i with
  | zero =>
    intro fuel j hfuel hk
    cases fuel with
    | zero => omega
    | succ fuel =>
      have hj : j < k := by simpa using hk
      rw [blockedIters, if_pos hj]
      simp
  | succ i ih =>
    intro fuel j hfuel hk
    cases fuel with
    | zero => omega
    | succ fuel =>
      have hj : j < k := by
        have h1 : j ≤ j + nb * (i + 1) := Nat.le_add_right _ _
        omega
      rw [blockedIters, if_pos hj]
      have harith : j + nb * (i + 1) = (j + nb) + nb * i := by ring
      rw [harith]
      refine List.mem_cons_of_mem _ (ih fuel (j + nb) ?_ ?_)
      · omega
      · rw [← harith]; exact hk

theorem mem_ite_some {α : Type} {c : Prop} [Decidable c] {x a : α}
    (h : a ∈ (if c then some x else none : Option α)) : a = x := by
  by_cases hc : c
  · rw [if_pos hc] at h
    exact (Option.mem_some_iff.mp h).symm
  · rw [if_neg hc] at h
    exact absurd h (by simp)

theorem isSome_ite_some {α : Type} {c : Prop} [Decidable c] {x : α} :
    (if c then some x else none : Option α).isSome = true ↔ c := by
  by_cases hc : c <;> simp [hc]

theorem head?_blockedIters {k nb : ℕ} {f : ℕ → PanelStep} {fuel j : ℕ}
    {s : PanelStep} (h : (blockedIters k nb f fuel j).head? = some s) :
    s = f j ∧ j < k := by
  cases fuel with
  | zero => simp [blockedIters] at h
  | succ fuel =>
    by_cases hj : j < k
    · rw [blockedIters, if_pos hj] at h
      simp at h
      exact ⟨h.symm, hj⟩
    · rw [blockedIters, if_neg hj] at h
      simp at h

theorem chain'_blockedIters {k nb : ℕ} {f : ℕ → PanelStep}
    (R : PanelStep → PanelStep → Prop)
    (hR : ∀ j, j < k → j + nb < k → R (f j) (f (j + nb))) :
    ∀ fuel j, List.Chain' R (blockedIters k nb f fuel j) := by
  intro fuel
  induction fuel with
  | zero => intro j; simp [blockedIters]
  | succ fuel ih =>
    intro j
    by_cases hj : j < k
    · rw [blockedIters, if_pos hj]
      refine List.chain'_cons'.mpr ⟨?_, ih (j + nb)⟩
      intro b hb
      obtain ⟨hbe, hlt⟩ := head?_blockedIters hb
      rw [hbe]
      exact hR j hj hlt
    · rw [blockedIters, if_neg hj]
      simp

/-- C1: for every m-by-n matrix with k = min(m, n) and effective block size
nb = min(nbopt, k) (for any positive option block size), the gelqf loop
advances its progress counter j from 0 in steps of ib = min(nb, k - j) until
j >= k: the trace visits exactly the counters 0, nb, 2 nb, ... below k, and
consecutive iterations differ by the previous iteration's ib. Every
iteration factors the panel of rows [j, j+ib) across columns [j, n) with the
unblocked panel factorizer (tau slice [j, j+ib)), and exactly when rows
remain below (j + ib < m) it builds the block factor with direction Forward
and storage Rowwise and applies the block reflector from the right to rows
[j+ib, m) over columns [j, n). -/
theorem gelqf_forward_sweep_structure (m n nbopt : ℕ) (hnb : 1 ≤ nbopt) :
    (∀ s ∈ gelqfTrace m n nbopt, ∃ i : ℕ,
        s.ctr = effNB nbopt m n * i ∧ s.ctr < min m n) ∧
    (∀ i : ℕ, effNB nbopt m n * i < min m n →
        gelqfIter m n (min m n) (effNB nbopt m n) (effNB nbopt m n * i)
          ∈ gelqfTrace m n nbopt) ∧
    (∀ s, (gelqfTrace m n nbopt).head? = some s → s.ctr = 0) ∧
    List.Chain' (fun s s' => s'.ctr = s.ctr + s.ib) (gelqfTrace m n nbopt) ∧
    (∀ s ∈ gelqfTrace m n nbopt,
        s.ib = min (effNB nbopt m n) (min m n - s.ctr) ∧
        s.prLo = s.ctr ∧ s.prHi = s.ctr + s.ib ∧
        s.pcLo = s.ctr ∧ s.pcHi = n ∧
        s.tauLo = s.ctr ∧ s.tauHi = s.ctr + s.ib ∧
        (s.app.isSome = true ↔ s.ctr + s.ib < m) ∧
        (∀ a ∈ s.app, a = ⟨Side.Right, Op.NoTrans, Direction.Forward,
            StoreV.Rowwise, s.ctr + s.ib, m, s.ctr, n⟩)) := by
  refine ⟨?_, ?_, ?_, ?_, ?_⟩
  · intro s hs
    unfold gelqfTrace at hs
    obtain ⟨i, hlt, hse⟩ := mem_blockedIters hs
    exact ⟨i, by rw [hse]; simp [gelqfIter], by rw [hse]; simpa [gelqfIter] using hlt⟩
  · intro i hi
    unfold gelqfTrace
    have hpos : 0 < min m n := lt_of_le_of_lt (Nat.zero_le _) hi
    have hnb1 : 1 ≤ effNB nbopt m n := le_min hnb hpos
    have hile : i ≤ effNB nbopt m n * i := Nat.le_mul_of_pos_left i hnb1
    have hmem := mem_blockedIters_of (min m n) (effNB nbopt m n)
      (gelqfIter m n (min m n) (effNB nbopt m n)) i (min m n + 1) 0
      (by omega) (by simpa using hi)
    simpa using hmem
  · intro s hs
    unfold gelqfTrace at hs
    obtain ⟨hse, -⟩ := head?_blockedIters hs
    rw [hse]
    simp [gelqfIter]
  · unfold gelqfTrace
    refine chain'_blockedIters _ ?_ _ _
    intro j hj hjnb
    have hmin : min (effNB nbopt m n) (min m n - j) = effNB nbopt m n := by omega
    simp [gelqfIter, hmin]
  · intro s hs
    unfold gelqfTrace at hs
    obtain ⟨i, hlt, hse⟩ := mem_blockedIters hs
    subst hse
    refine ⟨rfl, rfl, rfl, rfl, rfl, rfl, rfl, isSome_ite_some, ?_⟩
    intro a ha
    exact mem_ite_some ha

/-- Witness for C1 at m = 5, n = 7, option block size 2. -/
theorem gelqf_forward_sweep_structure_witness :
    (∀ s ∈ gelqfTrace 5 7 2, ∃ i : ℕ,
        s.ctr = effNB 2 5 7 * i ∧ s.ctr < min 5 7) ∧
    (∀ i : ℕ, effNB 2 5 7 * i < min 5 7 →
        gelqfIter 5 7 (min 5 7) (effNB 2 5 7) (effNB 2 5 7 * i)
          ∈ gelqfTrace 5 7 2) ∧
    (∀ s, (gelqfTrace 5 7 2).head? = some s → s.ctr = 0) ∧
    List.Chain' (fun s s' => s'.ctr = s.ctr + s.ib) (gelqfTrace 5 7 2) ∧
    (∀ s ∈ gelqfTrace 5 7 2,
        s.ib = min (effNB 2 5 7) (min 5 7 - s.ctr) ∧
        s.prLo = s.ctr ∧ s.prHi = s.ctr + s.ib ∧
        s.pcLo = s.ctr ∧ s.pcHi = 7 ∧
        s.tauLo = s.ctr ∧ s.tauHi = s.ctr + s.ib ∧
        (s.app.isSome = true ↔ s.ctr + s.ib < 5) ∧
        (∀ a ∈ s.app, a = ⟨Side.Right, Op.NoTrans, Direction.Forward,
            StoreV.Rowwise, s.ctr + s.ib, 5, s.ctr, 7⟩)) :=
  gelqf_forward_sweep_structure 5 7 2 (by decide)

/-- C2: for every m-by-n matrix with k = min(m, n) and effective block size
nb = min(nbopt, k) (for any positive option block size), the gerqf loop
sweeps backward: the counter j2 visits exactly 0, nb, 2 nb, ... below k with
ib = min(nb, k - j2); the current panel starts at row j = m - j2 - ib and
spans rows [j, j+ib) over columns [0, n-j2) (and j2 + ib ≤ k ≤ m, so this
row arithmetic does not wrap); the tau entries used are those at indices
[k-j2-ib, k-j2); the direction passed to larft and larfb is Backward with
storage Rowwise; and exactly when j > 0 the block reflector is applied from
the right to rows [0, j) over columns [0, n-j2). -/
theorem gerqf_backward_sweep_structure (m n nbopt : ℕ) (hnb : 1 ≤ nbopt) :
    (∀ s ∈ gerqfTrace m n nbopt, ∃ i : ℕ,
        s.ctr = effNB nbopt m n * i ∧ s.ctr < min m n) ∧
    (∀ i : ℕ, effNB nbopt m n * i < min m n →
        gerqfIter m n (min m n) (effNB nbopt m n) (effNB nbopt m n * i)
          ∈ gerqfTrace m n nbopt) ∧
    (∀ s, (gerqfTrace m n nbopt).head? = some s → s.ctr = 0) ∧
    List.Chain' (fun s s' => s'.ctr = s.ctr + effNB nbopt m n)
      (gerqfTrace m n nbopt) ∧
    (∀ s ∈ gerqfTrace m n nbopt,
        s.ib = min (effNB nbopt m n) (min m n - s.ctr) ∧
        s.ctr + s.ib ≤ min m n ∧ min m n ≤ m ∧
        s.prLo = m - s.ctr - s.ib ∧ s.prHi = s.prLo + s.ib ∧
        s.pcLo = 0 ∧ s.pcHi = n - s.ctr ∧
        s.tauLo = min m n - s.ctr - s.ib ∧ s.tauHi = min m n - s.ctr ∧
        (s.app.isSome = true ↔ 0 < m - s.ctr - s.ib) ∧
        (∀ a ∈ s.app, a = ⟨Side.Right, Op.NoTrans, Direction.Backward,
            StoreV.Rowwise, 0, m - s.ctr - s.ib, 0, n - s.ctr⟩)) := by
  refine ⟨?_, ?_, ?_, ?_, ?_⟩
  · intro s hs
    unfold gerqfTrace at hs
    obtain ⟨i, hlt, hse⟩ := mem_blockedIters hs
    exact ⟨i, by rw [hse]; simp [gerqfIter], by rw [hse]; simpa [gerqfIter] using hlt⟩
  · intro i hi
    unfold gerqfTrace
    have hpos : 0 < min m n := lt_of_le_of_lt (Nat.zero_le _) hi
    have hnb1 : 1 ≤ effNB nbopt m n := le_min hnb hpos
    have hile : i ≤ effNB nbopt m n * i := Nat.le_mul_of_pos_left i hnb1
    have hmem := mem_blockedIters_of (min m n) (effNB nbopt m n)
      (gerqfIter m n (min m n) (effNB nbopt m n)) i (min m n + 1) 0
      (by omega) (by simpa using hi)
    simpa using hmem
  · intro s hs
    unfold gerqfTrace at hs
    obtain ⟨hse, -⟩ := head?_blockedIters hs
    rw [hse]
    simp [gerqfIter]
  · unfold gerqfTrace
    refine chain'_blockedIters _ ?_ _ _
    intro j hj hjnb
    simp [gerqfIter]
  · intro s hs
    unfold gerqfTrace at hs
    obtain ⟨i, hlt, hse⟩ := mem_blockedIters hs
    subst hse
    refine ⟨rfl, ?_, Nat.min_le_left m n, rfl, rfl, rfl, rfl, rfl, rfl,
      isSome_ite_some, ?_⟩
    · simp only [gerqfIter]
      omega
    · intro a ha
      exact mem_ite_some ha

/-- Witness for C2 at m = 7, n = 5, option block size 2. -/
theorem gerqf_backward_sweep_structure_witness :
    (∀ s ∈ gerqfTrace 7 5 2, ∃ i : ℕ,
        s.ctr = effNB 2 7 5 * i ∧ s.ctr < min 7 5) ∧
    (∀ i : ℕ, effNB 2 7 5 * i < min 7 5 →
        gerqfIter 7 5 (min 7 5) (effNB 2 7 5) (effNB 2 7 5 * i)
          ∈ gerqfTrace 7 5 2) ∧
    (∀ s, (gerqfTrace 7 5 2).head? = some s → s.ctr = 0) ∧
    List.Chain' (fun s s' => s'.ctr = s.ctr + effNB 2 7 5) (gerqfTrace 7 5 2) ∧
    (∀ s ∈ gerqfTrace 7 5 2,
        s.ib = min (effNB 2 7 5) (min 7 5 - s.ctr) ∧
        s.ctr + s.ib ≤ min 7 5 ∧ min 7 5 ≤ 7 ∧
        s.prLo = 7 - s.ctr - s.ib ∧ s.prHi = s.prLo + s.ib ∧
        s.pcLo = 0 ∧ s.pcHi = 5 - s.ctr ∧
        s.tauLo = min 7 5 - s.ctr - s.ib ∧ s.tauHi = min 7 5 - s.ctr ∧
        (s.app.isSome = true ↔ 0 < 7 - s.ctr - s.ib) ∧
        (∀ a ∈ s.app, a = ⟨Side.Right, Op.NoTrans, Direction.Backward,
            StoreV.Rowwise, 0, 7 - s.ctr - s.ib, 0, 5 - s.ctr⟩)) :=
  gerqf_backward_sweep_structure 7 5 2 (by decide)

theorem gelqfLoopRun_zero {σ : Type} (nb : ℕ) (body : ℕ → σ → σ)
    (fuel j : ℕ) (s : σ) : gelqfLoopRun 0 nb body fuel j s = s := by
  cases fuel <;> simp [gelqfLoopRun]

/-- C3: gelqf and gerqf signal their precondition-violation error exactly
when size(tau) < min(m, n); when they signal it, the entry state (A and tau)
is returned untouched inside the error, since the check precedes the loop
and every kernel call (atomicity); for inputs passing the check no other
failure is signalled (the abstract iteration bodies standing for the
external kernels are total functions); and m = 0 or n = 0 makes the loop run
zero times, returning the state unchanged with success. Stated for an
arbitrary state type and arbitrary iteration bodies. -/
theorem lq_rq_error_check_atomic_quick_return {σ : Type}
    (bodyL bodyR : ℕ → σ → σ) (m n sizeTau nbopt : ℕ) (s : σ) :
    (gelqfRun m n sizeTau nbopt bodyL s = Except.error s ↔ sizeTau < min m n) ∧
    (gerqfRun m n sizeTau nbopt bodyR s = Except.error s ↔ sizeTau < min m n) ∧
    (∀ e, gelqfRun m n sizeTau nbopt bodyL s = Except.error e → e = s) ∧
    (∀ e, gerqfRun m n sizeTau nbopt bodyR s = Except.error e → e = s) ∧
    ((m = 0 ∨ n = 0) →
      gelqfRun m n sizeTau nbopt bodyL s = Except.ok s ∧
      gerqfRun m n sizeTau nbopt bodyR s = Except.ok s) := by
  by_cases h : sizeTau < min m n
  · refine ⟨by simp [gelqfRun, h], by simp [gerqfRun, h], ?_, ?_, ?_⟩
    · intro e he
      simp [gelqfRun, h] at he
      exact he.symm
    · intro e he
      simp [gerqfRun, h] at he
      exact he.symm
    · intro h0
      have hk : min m n = 0 := by
        rcases h0 with h0 | h0 <;> simp [h0]
      omega
  · refine ⟨by simp [gelqfRun, h], by simp [gerqfRun, h],
      by intro e he; simp [gelqfRun, h] at he,
      by intro e he; simp [gerqfRun, h] at he, ?_⟩
    intro h0
    have hk : min m n = 0 := by
      rcases h0 with h0 | h0 <;> simp [h0]
    constructor
    · simp only [gelqfRun, h, if_neg h, hk]
      rw [gelqfLoopRun_zero]
      simp
    · simp only [gerqfRun, h, if_neg h, hk]
      rw [gelqfLoopRun_zero]
      simp

/-- Witness for C3 at m = 0, n = 5, size(tau) = 0, with a body that would
change the state if it ever ran. -/
theorem lq_rq_error_check_atomic_quick_return_witness :
    gelqfRun 0 5 0 32 (fun _ (t : ℕ) => t + 1) 7 = Except.ok 7 ∧
    gerqfRun 0 5 0 32 (fun _ (t : ℕ) => t + 1) 7 = Except.ok 7 :=
  (lq_rq_error_check_atomic_quick_return (fun _ t => t + 1) (fun _ t => t + 1)
    0 5 0 32 7).2.2.2.2 (Or.inl rfl)

/-- C4: the workspace reported by the gelqf (resp. gerqf) query is
sufficient for every slice the driver takes of its scratch matrix, whatever
the external kernel queries report: the transposed panel scratch (the
gelq2 / gerq2 requirement, transposed) fits inside the reported shape; when
m > nb, the nb-by-nb T block carved out at rows [wm-nb, wm) x cols
[wn-nb, wn) is in bounds and the larfb requirement fits as well; and every
iteration's T slice of side ib stays inside the nb-by-nb block because
ib ≤ nb. -/
theorem worksize_covers_driver_slices (g l g2 l2 : WorkInfo) (m n nbopt : ℕ) :
    WorkInfo.fitsIn (WorkInfo.transpose g) (gelqfWorksize g l m n nbopt) ∧
    (effNB nbopt m n < m →
      WorkInfo.fitsIn l (gelqfWorksize g l m n nbopt) ∧
      effNB nbopt m n ≤ (gelqfWorksize g l m n nbopt).m ∧
      effNB nbopt m n ≤ (gelqfWorksize g l m n nbopt).n) ∧
    (∀ s ∈ gelqfTrace m n nbopt, s.ib ≤ effNB nbopt m n) ∧
    WorkInfo.fitsIn (WorkInfo.transpose g2) (gerqfWorksize g2 l2 m n nbopt) ∧
    (effNB nbopt m n < m →
      WorkInfo.fitsIn l2 (gerqfWorksize g2 l2 m n nbopt) ∧
      effNB nbopt m n ≤ (gerqfWorksize g2 l2 m n nbopt).m ∧
      effNB nbopt m n ≤ (gerqfWorksize g2 l2 m n nbopt).n) ∧
    (∀ s ∈ gerqfTrace m n nbopt, s.ib ≤ effNB nbopt m n) := by
  refine ⟨?_, ?_, ?_, ?_, ?_, ?_⟩
  · by_cases hc : effNB nbopt m n < m <;>
      (simp [gelqfWorksize, WorkInfo.transpose, WorkInfo.minMax, WorkInfo.add,
        WorkInfo.fitsIn, hc]
       try omega)
  · intro hc
    simp [gelqfWorksize, WorkInfo.transpose, WorkInfo.minMax, WorkInfo.add,
      WorkInfo.fitsIn, hc]
    omega
  · intro s hs
    unfold gelqfTrace at hs
    obtain ⟨i, hlt, hse⟩ := mem_blockedIters hs
    subst hse
    simp [gelqfIter]
  · by_cases hc : effNB nbopt m n < m <;>
      (simp [gerqfWorksize, WorkInfo.transpose, WorkInfo.minMax, WorkInfo.add,
        WorkInfo.fitsIn, hc]
       try omega)
  · intro hc
    simp [gerqfWorksize, WorkInfo.transpose, WorkInfo.minMax, WorkInfo.add,
      WorkInfo.fitsIn, hc]
    omega
  · intro s hs
    unfold gerqfTrace at hs
    obtain ⟨i, hlt, hse⟩ := mem_blockedIters hs
    subst hse
    simp [gerqfIter]

/-- Witness for C4 at m = 5, n = 4, option block size 2 (so nb = 2 < m and
all workspace slices are exercised), with sample kernel requirements. -/
theorem worksize_covers_driver_slices_witness :
    WorkInfo.fitsIn (WorkInfo.transpose ⟨1, 2⟩) (gelqfWorksize ⟨1, 2⟩ ⟨3, 1⟩ 5 4 2) ∧
    WorkInfo.fitsIn ⟨3, 1⟩ (gelqfWorksize ⟨1, 2⟩ ⟨3, 1⟩ 5 4 2) ∧
    effNB 2 5 4 ≤ (gelqfWorksize ⟨1, 2⟩ ⟨3, 1⟩ 5 4 2).m ∧
    effNB 2 5 4 ≤ (gelqfWorksize ⟨1, 2⟩ ⟨3, 1⟩ 5 4 2).n ∧
    WorkInfo.fitsIn ⟨1, 3⟩ (gerqfWorksize ⟨2, 2⟩ ⟨1, 3⟩ 5 4 2) ∧
    (∀ s ∈ gelqfTrace 5 4 2, s.ib ≤ effNB 2 5 4) ∧
    (∀ s ∈ gerqfTrace 5 4 2, s.ib ≤ effNB 2 5 4) := by
  have h := worksize_covers_driver_slices ⟨1, 2⟩ ⟨3, 1⟩ ⟨2, 2⟩ ⟨1, 3⟩ 5 4 2
  have hc : effNB 2 5 4 < 5 := by decide
  exact ⟨h.1, (h.2.1 hc).1, (h.2.1 hc).2.1, (h.2.1 hc).2.2,
    (h.2.2.2.2.1 hc).1, h.2.2.1, h.2.2.2.2.2⟩

/-- C5 counterexample: at m = 5, n = 2 with the default option block size 32
the effective block size is nb = 2 and the panel count is one (min(m, n) = 2
is not greater than nb), yet both workspace queries still append the extra
nb-by-nb scratch for T, because their condition is m > nb, not
min(m, n) > nb. -/
theorem worksize_extra_term_counterexample :
    ¬ (min 5 2 > min 32 (min 5 2)) ∧
    gelqfWorksize ⟨1, 1⟩ ⟨1, 1⟩ 5 2 32 ≠ WorkInfo.transpose ⟨1, 1⟩ ∧
    gelqfWorksize ⟨1, 1⟩ ⟨1, 1⟩ 5 2 32
      = ((WorkInfo.transpose ⟨1, 1⟩).minMax ⟨1, 1⟩).add ⟨2, 2⟩ ∧
    gerqfWorksize ⟨1, 1⟩ ⟨1, 1⟩ 5 2 32 ≠ WorkInfo.transpose ⟨1, 1⟩ ∧
    gerqfWorksize ⟨1, 1⟩ ⟨1, 1⟩ 5 2 32
      = ((WorkInfo.transpose ⟨1, 1⟩).minMax ⟨1, 1⟩).add ⟨2, 2⟩ := by
  decide

/-- C5 amended: gelqf_worksize and gerqf_worksize are pure functions of the
problem dimensions and the block size (their embeddings take only the
dimensions and the shape-only results of the external kernel queries), and
they include the extra nb-by-nb scratch for the triangular factor T exactly
when m > nb = min(opts.nb, min(m, n)) — which, for a nonempty matrix and a
positive block size, is exactly when the corresponding driver performs at
least one block-reflector application — not when the panel count exceeds
one. -/
theorem worksize_extra_term_iff_block_apply (g l g2 l2 : WorkInfo)
    (m n nbopt : ℕ) (hnb : 1 ≤ nbopt) (hk : 1 ≤ min m n) :
    (effNB nbopt m n < m ↔
      (gelqfTrace m n nbopt).any (fun s => s.app.isSome) = true) ∧
    (effNB nbopt m n < m ↔
      (gerqfTrace m n nbopt).any (fun s => s.app.isSome) = true) ∧
    (effNB nbopt m n < m →
      gelqfWorksize g l m n nbopt
        = ((WorkInfo.transpose g).minMax l).add ⟨effNB nbopt m n, effNB nbopt m n⟩ ∧
      gerqfWorksize g2 l2 m n nbopt
        = ((WorkInfo.transpose g2).minMax l2).add ⟨effNB nbopt m n, effNB nbopt m n⟩) ∧
    (m ≤ effNB nbopt m n →
      gelqfWorksize g l m n nbopt = WorkInfo.transpose g ∧
      gerqfWorksize g2 l2 m n nbopt = WorkInfo.transpose g2) := by
  have hnbk : effNB nbopt m n ≤ min m n := Nat.min_le_right _ _
  have hkm : min m n ≤ m := Nat.min_le_left _ _
  have hnb1 : 1 ≤ effNB nbopt m n := le_min hnb hk
  refine ⟨?_, ?_, ?_, ?_⟩
  · constructor
    · intro hc
      refine List.any_eq_true.mpr ⟨gelqfIter m n (min m n) (effNB nbopt m n) 0, ?_, ?_⟩
      · have hmem := mem_blockedIters_of (min m n) (effNB nbopt m n)
          (gelqfIter m n (min m n) (effNB nbopt m n)) 0 (min m n + 1) 0
          (by omega) (by simpa using hk)
        simpa using hmem
      · show (gelqfIter m n (min m n) (effNB nbopt m n) 0).app.isSome = true
        simp only [gelqfIter]
        exact isSome_ite_some.mpr (by omega)
    · intro hc
      obtain ⟨s, hs, hp⟩ := List.any_eq_true.mp hc
      unfold gelqfTrace at hs
      obtain ⟨i, hlt, hse⟩ := mem_blockedIters hs
      subst hse
      simp only [gelqfIter] at hp
      have := isSome_ite_some.mp hp
      omega
  · constructor
    · intro hc
      refine List.any_eq_true.mpr ⟨gerqfIter m n (min m n) (effNB nbopt m n) 0, ?_, ?_⟩
      · have hmem := mem_blockedIters_of (min m n) (effNB nbopt m n)
          (gerqfIter m n (min m n) (effNB nbopt m n)) 0 (min m n + 1) 0
          (by omega) (by simpa using hk)
        simpa using hmem
      · show (gerqfIter m n (min m n) (effNB nbopt m n) 0).app.isSome = true
        simp only [gerqfIter]
        exact isSome_ite_some.mpr (by omega)
    · intro hc
      obtain ⟨s, hs, hp⟩ := List.any_eq_true.mp hc
      unfold gerqfTrace at hs
      obtain ⟨i, hlt, hse⟩ := mem_blockedIters hs
      subst hse
      simp only [gerqfIter] at hp
      have := isSome_ite_some.mp hp
      omega
  · intro hc
    exact ⟨by simp [gelqfWorksize, hc], by simp [gerqfWorksize, hc]⟩
  · intro hc
    have hc' : ¬ effNB nbopt m n < m := by omega
    exact ⟨by simp [gelqfWorksize, hc'], by simp [gerqfWorksize, hc']⟩

/-- Witness for C5 amended at m = 5, n = 2, option block size 32. -/
theorem worksize_extra_term_iff_block_apply_witness :
    (gelqfTrace 5 2 32).any (fun s => s.app.isSome) = true ∧
    (gerqfTrace 5 2 32).any (fun s => s.app.isSome) = true ∧
    gelqfWorksize ⟨1, 1⟩ ⟨1, 1⟩ 5 2 32
      = ((WorkInfo.transpose ⟨1, 1⟩).minMax ⟨1, 1⟩).add ⟨effNB 32 5 2, effNB 32 5 2⟩ := by
  have h := worksize_extra_term_iff_block_apply ⟨1, 1⟩ ⟨1, 1⟩ ⟨1, 1⟩ ⟨1, 1⟩
    5 2 32 (by decide) (by decide)
  have hc : effNB 32 5 2 < 5 := by decide
  exact ⟨h.1.mp hc, h.2.1.mp hc, (h.2.2.1 hc).1⟩

theorem blockedIters_single (k nb : ℕ) (f : ℕ → PanelStep) (fuel : ℕ)
    (h1 : 0 < k) (h2 : k ≤ nb) (hf : 2 ≤ fuel) :
    blockedIters k nb f fuel 0 = [f 0] := by
  obtain ⟨fl, rfl⟩ : ∃ fl, fuel = fl + 2 := ⟨fuel - 2, by omega⟩
  rw [blockedIters, if_pos h1, blockedIters, if_neg (by omega)]

/-- C6 counterexample: at m = 3, n = 2 with the default option block size 32
the single-panel condition nb ≥ k holds (k = 2), yet the gelqf trace is not
a standalone invocation of the unblocked panel factorizer on the whole
matrix: beyond the panel factorization the driver also builds T and applies
the block reflector (to the rows below the panel for gelqf, to the rows
above for gerqf), so with m > n the blocked drivers do not reduce to the
panel factorizer alone. -/
theorem single_panel_fast_path_counterexample :
    min 3 2 ≤ 32 ∧
    gelqfTrace 3 2 32 ≠ panelAloneTrace 3 2 ∧
    (gelqfTrace 3 2 32).map (fun s => s.app.isSome) = [true] ∧
    gerqfTrace 3 2 32 ≠ panelAloneTrace 3 2 ∧
    (gerqfTrace 3 2 32).map (fun s => s.app.isSome) = [true] := by
  decide

/-- C6 amended: when nb ≥ k = min(m, n) and m ≤ n (with m ≥ 1), both blocked
drivers perform exactly one invocation of the unblocked panel factorizer,
covering the whole matrix and all k tau entries, with no block-factor
construction and no block-reflector application — hence results identical to
invoking gelq2 / gerq2 alone on the same input; when m > n the driver
performs an additional block-reflector application beyond the panel
factorization (see the counterexample), so the single-panel fast path is
not the panel factorizer alone there. -/
theorem single_panel_fast_path_amended (m n nbopt : ℕ) (hmn : m ≤ n)
    (hm : 1 ≤ m) (hnb : min m n ≤ nbopt) :
    gelqfTrace m n nbopt = panelAloneTrace m n ∧
    gerqfTrace m n nbopt = panelAloneTrace m n := by
  have hk : min m n = m := min_eq_left hmn
  have hnb' : effNB nbopt m n = m := by
    unfold effNB
    omega
  constructor
  · unfold gelqfTrace panelAloneTrace
    rw [hk, hnb', blockedIters_single m m _ (m + 1) hm le_rfl (by omega)]
    simp [gelqfIter]
  · unfold gerqfTrace panelAloneTrace
    rw [hk, hnb', blockedIters_single m m _ (m + 1) hm le_rfl (by omega)]
    simp [gerqfIter]

/-- Witness for C6 amended at m = 2, n = 3, option block size 32. -/
theorem single_panel_fast_path_amended_witness :
    gelqfTrace 2 3 32 = panelAloneTrace 2 3 ∧
    gerqfTrace 2 3 32 = panelAloneTrace 2 3 :=
  single_panel_fast_path_amended 2 3 32 (by decide) (by decide) (by decide)

theorem ungl2Countdown_runs (W : ℕ) (hW : 1 ≤ W) :
    ∀ t, t < W → ungl2Countdown W (t + 1) (ungl2InitJ W t) = some t := by
  intro t
  induction t with
  | zero =>
    intro ht
    have hj : ungl2InitJ W 0 = W - 1 := by
      unfold ungl2InitJ
      rw [Nat.zero_add]
      exact Nat.mod_eq_of_lt (by omega)
    rw [hj, ungl2Countdown, if_pos rfl]
  | succ t ih =>
    intro ht
    have hj : ungl2InitJ W (t + 1) = t := by
      unfold ungl2InitJ
      have h1 : t + 1 + (W - 1) = t + W := by omega
      rw [h1, Nat.add_mod_right]
      exact Nat.mod_eq_of_lt (by omega)
    rw [hj, ungl2Countdown, if_neg (by omega)]
    have hdec : (t + (W - 1)) % W = ungl2InitJ W t := rfl
    rw [hdec, ih (by omega)]

/-- C8: the reverse reflector-application loop of ungl2, which counts the
unsigned index j down from t - 1 (computed with wraparound over the W values
of the index type) and stops when j equals the wrapped sentinel
idx_t(-1) = W - 1, terminates for every input and executes exactly
t = min(nrows(Q), size(tauw)) iterations — including t = 0, where j is
initialized to the sentinel itself and the body runs zero times. -/
theorem ungl2_reverse_loop_runs_t_iterations (W kQ mtau : ℕ) (hW : 1 ≤ W)
    (hk : kQ < W) (hm : mtau < W) :
    ungl2Countdown W (ungl2_t kQ mtau + 1) (ungl2InitJ W (ungl2_t kQ mtau))
      = some (ungl2_t kQ mtau) := by
  refine ungl2Countdown_runs W hW (ungl2_t kQ mtau) ?_
  unfold ungl2_t
  omega

/-- Witness for C8 on a 64-bit index type with nrows(Q) = 3 and
size(tauw) = 5, so t = 3 iterations run. -/
theorem ungl2_reverse_loop_runs_t_iterations_witness :
    ungl2Countdown (2 ^ 64) (ungl2_t 3 5 + 1) (ungl2InitJ (2 ^ 64) (ungl2_t 3 5))
      = some (ungl2_t 3 5) :=
  ungl2_reverse_loop_runs_t_iterations (2 ^ 64) 3 5 (by decide) (by decide)
    (by decide)

/-- C9: the shape check of the generic matrix-view herk overload is inverted
with respect to its documented contract: for any valid uplo and any trans
accepted by the preceding checks, blas_error_if signals precisely when C is
square with side n, the dimension derived from A and trans — every
dimensionally consistent call with nrows(C) = ncols(C) = n triggers the
error, while a C of mismatched shape passes the check. -/
theorem herk_shape_check_inverted (uplo : Uplo) (trans : Op)
    (nrA ncA nrC ncC : ℕ)
    (htrans : trans = Op.NoTrans ∨ trans = Op.ConjTrans) :
    (herkCheckSignals uplo trans nrA ncA nrC ncC = true ↔
      (nrC = ncC ∧ nrC = (if trans = Op.NoTrans then nrA else ncA))) := by
  rcases htrans with h | h <;> subst h <;> cases uplo <;>
    simp [herkCheckSignals]

/-- Witness for C9: the dimensionally consistent call (C 4-by-4, A 4-by-9,
NoTrans, so n = nrows(A) = 4) trips the error check. -/
theorem herk_shape_check_inverted_witness :
    herkCheckSignals Uplo.Lower Op.NoTrans 4 9 4 4 = true :=
  (herk_shape_check_inverted Uplo.Lower Op.NoTrans 4 9 4 4 (Or.inl rfl)).mpr
    ⟨rfl, by decide⟩

/-- C10: the argument check of ungl2 can never fire for any input: because
the routine binds m to size(tauw), the guard compares size(tauw) against
min(size(tauw), ncols(Q)), which never exceeds size(tauw), so ungl2 never
signals a precondition violation no matter how short tauw is relative to
the matrix Q. -/
theorem ungl2_check_never_fires (nQ mtau : ℕ) :
    ungl2CheckFires nQ mtau = false := by
  have h : ¬ mtau < min mtau nQ := Nat.not_lt.mpr (Nat.min_le_left mtau nQ)
  simp [ungl2CheckFires, h]

end Tlapack
